import Mathlib

/-!
Shallow embedding of the rosco quiz-board application's state-replication
core (`src/App.tsx`): the game-state data model, the owner-side operations,
the outbound broadcast paths (BroadcastChannel, localStorage signal,
realtime network channel with its 120 ms throttle) and the player-side
observer handlers, together with theorems checking the specification's
claims about them.
-/

namespace Rosco

/-- `Rule` from App.tsx: the three letter-rules a prompt may use. -/
inductive Rule
  | empieza
  | contiene
  | termina
  deriving DecidableEq, Repr

/-- `Status` from App.tsx: the play status of one item. -/
inductive Status
  | pendiente
  | bien
  | mal
  | pasada
  deriving DecidableEq, Repr

/-- `Item` from App.tsx: one loaded question. -/
structure Item where
  letter : String
  rule : Rule
  prompt : String
  answer : String
  deriving DecidableEq, Repr

/-- `PlayItem` from App.tsx: an `Item` plus its mutable `status`. -/
structure PlayItem where
  letter : String
  rule : Rule
  prompt : String
  answer : String
  status : Status
  deriving DecidableEq, Repr

instance : Inhabited PlayItem := ⟨⟨"", .empieza, "", "", .pendiente⟩⟩

/-- The replicated aggregate: the five state variables
`items / idx / seconds / running / finished` of the App component. -/
structure GameState where
  items : List PlayItem
  idx : Nat
  seconds : Nat
  running : Bool
  finished : Bool
  deriving DecidableEq, Repr

/-- The session role fixed at start from the `view` URL parameter. -/
inductive Role
  | owner
  | player
  deriving DecidableEq, Repr

/-- Wire form of a sync message as read by the local listeners: the
`type` tag, the optional `roomId` field (`none` models a message object
whose `roomId` key is absent, so that reading it yields `undefined`),
and the five state fields.  A parsed message object is modelled directly;
the listeners' initial null-check (`if (!m) ...`) is outside the model
because a present `Envelope` is never null. -/
structure Envelope where
  type : String
  roomId : Option String
  items : List PlayItem
  idx : Nat
  seconds : Nat
  running : Bool
  finished : Bool
  deriving DecidableEq, Repr

/-- JS truthiness of the optional string field `m.roomId`: an absent
field (`undefined`) and the empty string are falsy, every other string
is truthy. -/
def truthyStr : Option String → Bool
  | none => false
  | some s => s != ""

/-- The five state fields an accepted envelope writes into the replica
(`setItems(m.items); setIdx(m.idx); setSeconds(m.seconds);
setRunning(m.running); setFinished(m.finished)`). -/
def Envelope.payload (m : Envelope) : GameState :=
  { items := m.items, idx := m.idx, seconds := m.seconds,
    running := m.running, finished := m.finished }

/-- `onMsg` from App.tsx (BroadcastChannel listener, registered for the
player role): drop unless `m.type === "state"`; drop when
`m.roomId && m.roomId !== roomId`; otherwise replace the replica with the
payload. -/
def onMsg (roomId : String) (replica : GameState) (m : Envelope) : GameState :=
  if m.type ≠ "state" then replica
  else if truthyStr m.roomId && m.roomId != some roomId then replica
  else m.payload

/-- `onStorage` from App.tsx (storage-event listener, registered for the
player role), applied to the parsed `e.newValue`: apply the payload when
`m.type === "state" && (!m.roomId || m.roomId === roomId)`, else ignore.
(The surrounding key check `e.key === "rosco-sync"` and the JSON parse
are modelled by handing the parsed envelope of the sync slot directly.) -/
def onStorage (roomId : String) (replica : GameState) (m : Envelope) : GameState :=
  if m.type = "state" && (!truthyStr m.roomId || m.roomId == some roomId) then m.payload
  else replica

/-- The realtime broadcast handler from App.tsx
(`.on("broadcast", { event: "state" }, ...)`): `none` models a falsy
`msg.payload`; only the player role applies the received state. -/
def onRealtime (role : Role) (replica : GameState) (m : Option GameState) : GameState :=
  match m with
  | none => replica
  | some p => if role = .player then p else replica

/-- C1: an observer for room A applies a room-A envelope wholesale and
ignores a room-B envelope (B nonempty, B ≠ A) on both local paths. -/
theorem room_isolation (A B : String) (_hA : A ≠ "") (hB : B ≠ "") (hBA : B ≠ A)
    (replica : GameState) (e1 e2 : Envelope)
    (h1t : e1.type = "state") (h1r : e1.roomId = some A) (h2r : e2.roomId = some B) :
    onMsg A replica e1 = e1.payload ∧ onStorage A replica e1 = e1.payload ∧
      onMsg A replica e2 = replica ∧ onStorage A replica e2 = replica := by
  refine ⟨?_, ?_, ?_, ?_⟩ <;>
    simp [onMsg, onStorage, truthyStr, h1t, h1r, h2r, hB, hBA]

/-- Witness for `room_isolation` at concrete rooms and envelopes. -/
theorem room_isolation_witness :
    onMsg "A" ⟨[], 3, 9, true, false⟩ ⟨"state", some "A", [], 0, 5, false, true⟩
        = Envelope.payload ⟨"state", some "A", [], 0, 5, false, true⟩ ∧
      onStorage "A" ⟨[], 3, 9, true, false⟩ ⟨"state", some "A", [], 0, 5, false, true⟩
        = Envelope.payload ⟨"state", some "A", [], 0, 5, false, true⟩ ∧
      onMsg "A" ⟨[], 3, 9, true, false⟩ ⟨"state", some "B", [], 7, 2, true, false⟩
        = ⟨[], 3, 9, true, false⟩ ∧
      onStorage "A" ⟨[], 3, 9, true, false⟩ ⟨"state", some "B", [], 7, 2, true, false⟩
        = ⟨[], 3, 9, true, false⟩ :=
  room_isolation "A" "B" (by decide) (by decide) (by decide)
    ⟨[], 3, 9, true, false⟩ ⟨"state", some "A", [], 0, 5, false, true⟩
    ⟨"state", some "B", [], 7, 2, true, false⟩ rfl rfl rfl

/-- C2: whenever an envelope is accepted (its `type` is `"state"` and its
room field is falsy or equal to the session room), every observer path
replaces the replica with the payload exactly, independent of the
replica's prior value; likewise the realtime handler on the player role. -/
theorem wholesale_replacement (room : String) (m : Envelope)
    (ht : m.type = "state") (hr : truthyStr m.roomId = false ∨ m.roomId = some room) :
    ∀ replica p : GameState,
      onMsg room replica m = m.payload ∧ onStorage room replica m = m.payload ∧
        onRealtime .player replica (some p) = p := by
  intro replica p
  rcases hr with hr | hr <;>
    simp [onMsg, onStorage, onRealtime, ht, hr]

/-- Witness for `wholesale_replacement` at a concrete envelope and two
distinct prior replicas. -/
theorem wholesale_replacement_witness :
    onMsg "r" ⟨[], 9, 9, false, true⟩ ⟨"state", some "r", [], 4, 8, true, false⟩
        = Envelope.payload ⟨"state", some "r", [], 4, 8, true, false⟩ ∧
      onStorage "r" ⟨[], 9, 9, false, true⟩ ⟨"state", some "r", [], 4, 8, true, false⟩
        = Envelope.payload ⟨"state", some "r", [], 4, 8, true, false⟩ ∧
      onRealtime .player ⟨[], 9, 9, false, true⟩ (some ⟨[], 4, 8, true, false⟩)
        = ⟨[], 4, 8, true, false⟩ :=
  wholesale_replacement "r" ⟨"state", some "r", [], 4, 8, true, false⟩ rfl (Or.inr rfl)
    ⟨[], 9, 9, false, true⟩ ⟨[], 4, 8, true, false⟩

/-- C10: a well-formed `"state"` envelope whose room field is falsy
(absent or the empty string) is applied by both local observer paths
regardless of the session's own room. -/
theorem falsy_room_applied (room : String) (replica : GameState) (m : Envelope)
    (ht : m.type = "state") (hf : truthyStr m.roomId = false) :
    onMsg room replica m = m.payload ∧ onStorage room replica m = m.payload := by
  constructor <;> simp [onMsg, onStorage, ht, hf]

/-- Witness for `falsy_room_applied`: an envelope with an absent room
field crosses into session room `"X"`. -/
theorem falsy_room_applied_witness :
    onMsg "X" ⟨[], 1, 1, false, false⟩ ⟨"state", none, [], 9, 3, true, false⟩
        = Envelope.payload ⟨"state", none, [], 9, 3, true, false⟩ ∧
      onStorage "X" ⟨[], 1, 1, false, false⟩ ⟨"state", none, [], 9, 3, true, false⟩
        = Envelope.payload ⟨"state", none, [], 9, 3, true, false⟩ :=
  falsy_room_applied "X" ⟨[], 1, 1, false, false⟩ ⟨"state", none, [], 9, 3, true, false⟩
    rfl rfl

/-- `clamp` from App.tsx: `Math.min(max, Math.max(min, n))`. -/
def clamp (n mn mx : Int) : Int := min mx (max mn n)

/-- The advance condition inside `nextIndex`:
`items[j].status === "pendiente" || items[j].status === "pasada"`. -/
def eligible (it : PlayItem) : Bool := it.status == .pendiente || it.status == .pasada

/-- The scan loop inside `nextIndex`: starting at position `j`, try `c`
positions, stepping `(j + 1) % items.length` each time, and return the
first position holding a pending or skipped item.  Every call site keeps
`j < items.length`, so `getD`'s default is never read. -/
def scanFrom (items : List PlayItem) : Nat → Nat → Option Nat
  | _, 0 => none
  | j, c + 1 =>
    if eligible (items.getD j default) then some j
    else scanFrom items ((j + 1) % items.length) c

/-- `nextIndex` from App.tsx: `0` on an empty list, else the first
pending/skipped position scanning forward from `fromIdx + 1` and wrapping
modulo `items.length` over `items.length` candidates, falling back to
`fromIdx` when the scan finds nothing. -/
def nextIndex (items : List PlayItem) (fromIdx : Nat) : Nat :=
  if items.length = 0 then 0
  else
    match scanFrom items ((fromIdx + 1) % items.length) items.length with
    | some j => j
    | none => fromIdx

/-- `mark` from App.tsx.  Note the source computes `nextIndex(idx)` with
the pre-update `items` closure (the `setItems(updated)` call does not
change the `items` binding the `nextIndex` closure reads), so the scan
runs over the old item list. -/
def mark (role : Role) (st : GameState) (s : Status) : GameState :=
  if role ≠ .owner || st.finished || st.items.length = 0 then st
  else
    let cur := st.items.getD st.idx default
    { st with items := st.items.set st.idx { cur with status := s },
              idx := nextIndex st.items st.idx }

/-- `start` from App.tsx. -/
def start (role : Role) (st : GameState) : GameState :=
  if role = .owner then { st with running := true, finished := false } else st

/-- `pause` from App.tsx. -/
def pause (role : Role) (st : GameState) : GameState :=
  if role = .owner then { st with running := false } else st

/-- `reset` from App.tsx: all statuses back to pending, index 0, timer
back to the stored default, flags cleared. -/
def reset (role : Role) (defaultSeconds : Nat) (st : GameState) : GameState :=
  if role ≠ .owner then st
  else { st with items := st.items.map (fun x => { x with status := .pendiente }),
                 idx := 0, seconds := defaultSeconds, finished := false, running := false }

/-- `setTimer` from App.tsx: clamp the requested seconds into `[0, 3600]`. -/
def setTimer (role : Role) (st : GameState) (n : Int) : GameState :=
  if role ≠ .owner then st
  else { st with seconds := (clamp n 0 (60 * 60)).toNat }

/-- `adjustTimer` from App.tsx: `setTimer(seconds + delta)`. -/
def adjustTimer (role : Role) (st : GameState) (delta : Int) : GameState :=
  setTimer role st ((st.seconds : Int) + delta)

/-- One firing of the countdown interval callback
(`setSeconds(s => (s > 0 ? s - 1 : 0))`); the interval is scheduled only
while `role === "owner" && running && !finished`, which is the guard. -/
def tick (st : GameState) : GameState :=
  if st.running && !st.finished then
    { st with seconds := if st.seconds > 0 then st.seconds - 1 else 0 }
  else st

/-- The timer-expiry effect body on the owner
(`if (seconds === 0 && running) { setRunning(false); setFinished(true); }`). -/
def expire (st : GameState) : GameState :=
  if st.seconds = 0 && st.running then { st with running := false, finished := true }
  else st

/-- One raw record of a question-bank JSON array, as the load functions
read it: four string fields, where `""` models an absent or empty (falsy)
field. -/
structure RawRecord where
  letter : String
  rule : String
  prompt : String
  answer : String
  deriving DecidableEq, Repr

/-- The filter predicate of both load functions:
`d && d.letter && d.rule && d.prompt && d.answer`. -/
def validRecord (d : RawRecord) : Bool :=
  d.letter != "" && d.rule != "" && d.prompt != "" && d.answer != ""

/-- Conversion of a rule string known to be one of the three enumerated
values (any other string yields the first value, matching the source's
normalisation target `"empieza"`). -/
def ruleOfString (r : String) : Rule :=
  if r = "contiene" then .contiene
  else if r = "termina" then .termina
  else .empieza

/-- The map step of both load functions: uppercase the letter, keep the
rule if it is one of the three enumerated values and otherwise normalise
to `"empieza"`, keep prompt and answer, initialise status to pending. -/
def mapRecord (d : RawRecord) : PlayItem :=
  { letter := d.letter.toUpper,
    rule := if ["empieza", "contiene", "termina"].contains d.rule then ruleOfString d.rule
            else .empieza,
    prompt := d.prompt,
    answer := d.answer,
    status := .pendiente }

/-- `mapped` in both load functions: valid records kept and mapped. -/
def mapBank (data : List RawRecord) : List PlayItem :=
  (data.filter validRecord).map mapRecord

/-- `FALLBACK_DBZ` from App.tsx: the fallback bank is empty. -/
def FALLBACK_DBZ : List Item := []

/-- The fallback items `loadFromUrl`'s catch branch installs:
`FALLBACK_DBZ.map(i => ({...i, letter: i.letter.toUpperCase(), status: "pendiente"}))`. -/
def fallbackItems : List PlayItem :=
  FALLBACK_DBZ.map fun i =>
    { letter := i.letter.toUpper, rule := i.rule, prompt := i.prompt,
      answer := i.answer, status := .pendiente }

/-- Whether a load surfaced the success snack or the failure snack. -/
inductive LoadOutcome
  | ok
  | errorNotice
  deriving DecidableEq, Repr

/-- `loadFromUrl` from App.tsx.  `fetched = none` models a failed fetch,
non-OK HTTP status or unparsable body (a throw before mapping); an empty
mapped list throws `"El JSON está vacío o mal formateado"`.  Every throw
is caught by the catch branch, which installs the fallback bank and
surfaces the failure notice; the success branch installs the mapped bank.
Both branches reset index, flags and timer. -/
def loadFromUrlModel (defaultSeconds : Nat) (st : GameState)
    (fetched : Option (List RawRecord)) : GameState × LoadOutcome :=
  match fetched with
  | none =>
    ({ st with items := fallbackItems, idx := 0, finished := false,
               running := false, seconds := defaultSeconds }, .errorNotice)
  | some data =>
    let mapped := mapBank data
    if mapped.length = 0 then
      ({ st with items := fallbackItems, idx := 0, finished := false,
                 running := false, seconds := defaultSeconds }, .errorNotice)
    else
      ({ st with items := mapped, idx := 0, finished := false,
                 running := false, seconds := defaultSeconds }, .ok)

/-- `loadFromFile` from App.tsx.  `parsed = none` models a file read or
`JSON.parse` failure.  Unlike `loadFromUrl`, the catch branch only
surfaces the failure notice (`setSnack`) and leaves the game state
untouched — no fallback bank is installed. -/
def loadFromFileModel (defaultSeconds : Nat) (st : GameState)
    (parsed : Option (List RawRecord)) : GameState × LoadOutcome :=
  match parsed with
  | none => (st, .errorNotice)
  | some data =>
    let mapped := mapBank data
    if mapped.length = 0 then (st, .errorNotice)
    else
      ({ st with items := mapped, idx := 0, finished := false,
                 running := false, seconds := defaultSeconds }, .ok)

/-- The owner-side operations of the component. -/
inductive OwnerOp
  | start
  | pause
  | reset
  | mark (s : Status)
  | tick
  | expire
  | loadUrl (fetched : Option (List RawRecord))
  | loadFile (parsed : Option (List RawRecord))
  | setTimer (n : Int)
  | adjustTimer (delta : Int)
  deriving DecidableEq, Repr

/-- Dispatch of one owner-side operation on the owner session
(`role = owner`), parametrised by the stored default seconds. -/
def applyOp (defaultSeconds : Nat) : OwnerOp → GameState → GameState
  | .start, st => start .owner st
  | .pause, st => pause .owner st
  | .reset, st => reset .owner defaultSeconds st
  | .mark s, st => mark .owner st s
  | .tick, st => tick st
  | .expire, st => expire st
  | .loadUrl d, st => (loadFromUrlModel defaultSeconds st d).1
  | .loadFile d, st => (loadFromFileModel defaultSeconds st d).1
  | .setTimer n, st => setTimer .owner st n
  | .adjustTimer d, st => adjustTimer .owner st d

/-- The owner component's initial state: empty bank, index 0, the stored
default on the timer, not running, not finished. -/
def initState (defaultSeconds : Nat) : GameState :=
  { items := [], idx := 0, seconds := defaultSeconds, running := false, finished := false }

/-- States reachable from the initial state by owner-side operations. -/
inductive Reachable (defaultSeconds : Nat) : GameState → Prop
  | init : Reachable defaultSeconds (initState defaultSeconds)
  | step (op : OwnerOp) {st : GameState} :
      Reachable defaultSeconds st → Reachable defaultSeconds (applyOp defaultSeconds op st)

/-- The state invariant of claim C4: finished never runs, and the index
is in range whenever the bank is non-empty. -/
def Inv (st : GameState) : Prop :=
  (st.finished = true → st.running = false) ∧ (st.items ≠ [] → st.idx < st.items.length)

instance (st : GameState) : Decidable (Inv st) := by
  unfold Inv
  infer_instance

theorem scanFrom_lt_length (items : List PlayItem) (hlen : 0 < items.length) :
    ∀ (c j j' : Nat), j < items.length → scanFrom items j c = some j' → j' < items.length := by
  intro c
  induction c with
  | zero => intro j j' _ h; simp [scanFrom] at h
  | succ c ih =>
    intro j j' hj h
    simp only [scanFrom] at h
    split at h
    · exact (Option.some.injEq _ _ ▸ h : j = j') ▸ hj
    · exact ih _ _ (Nat.mod_lt _ hlen) h

theorem nextIndex_lt_length (items : List PlayItem) (fromIdx : Nat)
    (hne : items ≠ []) (hfrom : fromIdx < items.length) :
    nextIndex items fromIdx < items.length := by
  have hlen : 0 < items.length := List.length_pos.mpr hne
  unfold nextIndex
  split
  · exact hlen
  · cases hscan : scanFrom items ((fromIdx + 1) % items.length) items.length with
    | none => simp only [hscan]; exact hfrom
    | some j =>
      simp only [hscan]
      exact scanFrom_lt_length items hlen _ _ j (Nat.mod_lt _ hlen) hscan

theorem applyOp_preserves_inv (dflt : Nat) (op : OwnerOp) (st : GameState) (h : Inv st) :
    Inv (applyOp dflt op st) := by
  obtain ⟨hfr, hix⟩ := h
  cases op with
  | start =>
    have e : applyOp dflt .start st = { st with running := true, finished := false } := by
      simp [applyOp, start]
    rw [e]
    exact ⟨by simp, fun hne => hix hne⟩
  | pause =>
    have e : applyOp dflt .pause st = { st with running := false } := by
      simp [applyOp, pause]
    rw [e]
    exact ⟨fun _ => rfl, fun hne => hix hne⟩
  | reset =>
    have e : applyOp dflt .reset st
        = { st with items := st.items.map (fun x => { x with status := .pendiente }),
                    idx := 0, seconds := dflt, finished := false, running := false } := by
      simp [applyOp, reset]
    rw [e]
    refine ⟨by simp, ?_⟩
    intro hne
    simp only [List.length_map]
    have hne' : st.items ≠ [] := by
      intro he
      apply hne
      simp [he]
    exact Nat.zero_lt_of_lt (hix hne')
  | mark s =>
    simp only [applyOp]
    unfold mark
    split
    · exact ⟨hfr, hix⟩
    · next hguard =>
      have hlen0 : st.items.length ≠ 0 := by
        intro hc
        simp [hc] at hguard
      have hne : st.items ≠ [] := fun he => hlen0 (by simp [he])
      refine ⟨hfr, ?_⟩
      intro _
      simp only [List.length_set]
      exact nextIndex_lt_length st.items st.idx hne (hix hne)
  | tick =>
    simp only [applyOp]
    unfold tick
    split
    · exact ⟨hfr, hix⟩
    · exact ⟨hfr, hix⟩
  | expire =>
    simp only [applyOp]
    unfold expire
    split
    · exact ⟨fun _ => rfl, hix⟩
    · exact ⟨hfr, hix⟩
  | loadUrl d =>
    simp only [applyOp]
    cases d with
    | none =>
      exact ⟨by simp [loadFromUrlModel],
             by simp [loadFromUrlModel, fallbackItems, FALLBACK_DBZ]⟩
    | some data =>
      simp only [loadFromUrlModel]
      split
      · exact ⟨by simp, by simp [fallbackItems, FALLBACK_DBZ]⟩
      · next hmap =>
        exact ⟨by simp, fun _ => by simpa using Nat.pos_of_ne_zero hmap⟩
  | loadFile d =>
    simp only [applyOp]
    cases d with
    | none => exact ⟨hfr, hix⟩
    | some data =>
      simp only [loadFromFileModel]
      split
      · exact ⟨hfr, hix⟩
      · next hmap =>
        exact ⟨by simp, fun _ => by simpa using Nat.pos_of_ne_zero hmap⟩
  | setTimer n =>
    have e : applyOp dflt (.setTimer n) st
        = { st with seconds := (clamp n 0 (60 * 60)).toNat } := by
      simp [applyOp, setTimer]
    rw [e]
    exact ⟨hfr, fun hne => hix hne⟩
  | adjustTimer d =>
    have e : applyOp dflt (.adjustTimer d) st
        = { st with seconds := (clamp ((st.seconds : Int) + d) 0 (60 * 60)).toNat } := by
      simp [applyOp, adjustTimer, setTimer]
    rw [e]
    exact ⟨hfr, fun hne => hix hne⟩

/-- C4: every state reachable by owner operations (start, pause, reset,
mark, timer tick, timer expiry, bank loads, timer sets) satisfies the
invariant: `isFinished` implies not `isRunning`, and `currentIndex` is a
valid index whenever `items` is non-empty. -/
theorem reachable_invariant (defaultSeconds : Nat) (st : GameState)
    (h : Reachable defaultSeconds st) : Inv st := by
  induction h with
  | init => exact ⟨by simp [initState], by simp [initState]⟩
  | step op _ ih => exact applyOp_preserves_inv _ op _ ih

/-- Witness for `reachable_invariant`: a concrete state reached by
loading a one-record bank, starting, marking and expiring the timer. -/
theorem reachable_invariant_witness :
    Inv (applyOp 180 .expire (applyOp 180 (.mark .bien) (applyOp 180 .start
      (applyOp 180 (.loadUrl (some [⟨"a", "contiene", "p", "r"⟩])) (initState 180))))) :=
  reachable_invariant 180 _
    (Reachable.step .expire (Reachable.step (.mark .bien) (Reachable.step .start
      (Reachable.step (.loadUrl (some [⟨"a", "contiene", "p", "r"⟩])) Reachable.init))))

/-- A concrete mid-countdown running state. -/
def runningState5 : GameState := ⟨[], 0, 5, true, false⟩

/-- C5 counterexample: while `running`, the owner's `+10 s` button
(`adjustTimer 10`) raises `seconds` from 5 to 15, so `secondsRemaining`
is not non-increasing across every owner-side step, and the raise is not
the explicit reset operation. -/
theorem timer_monotonic_counterexample :
    runningState5.running = true ∧
      runningState5.seconds < (applyOp 180 (.adjustTimer 10) runningState5).seconds := by
  decide

/-- The owner operations that assign the timer from an external value:
the explicit reset, the timer-set operations behind the time controls,
and the bank loads (which reset the timer to the stored default). -/
def assignsTimer : OwnerOp → Bool
  | .reset => true
  | .setTimer _ => true
  | .adjustTimer _ => true
  | .loadUrl _ => true
  | .loadFile _ => true
  | _ => false

/-- C5 amended: while `isRunning` is true, `secondsRemaining` is
non-increasing across every owner-side step except the timer-assigning
operations (reset, the setTimer/adjustTimer controls, and bank loads);
only those operations can raise it. -/
theorem timer_monotonic_amended (dflt : Nat) (op : OwnerOp) (st : GameState)
    (_hrun : st.running = true) (hop : assignsTimer op = false) :
    (applyOp dflt op st).seconds ≤ st.seconds := by
  cases op with
  | start =>
    have e : applyOp dflt .start st = { st with running := true, finished := false } := by
      simp [applyOp, start]
    rw [e]
  | pause =>
    have e : applyOp dflt .pause st = { st with running := false } := by
      simp [applyOp, pause]
    rw [e]
  | reset => simp [assignsTimer] at hop
  | mark s =>
    simp only [applyOp]
    unfold mark
    split
    · exact Nat.le_refl _
    · exact Nat.le_refl _
  | tick =>
    simp only [applyOp]
    unfold tick
    split
    · show (if st.seconds > 0 then st.seconds - 1 else 0) ≤ st.seconds
      split <;> omega
    · exact Nat.le_refl _
  | expire =>
    simp only [applyOp]
    unfold expire
    split
    · exact Nat.le_refl _
    · exact Nat.le_refl _
  | loadUrl d => simp [assignsTimer] at hop
  | loadFile d => simp [assignsTimer] at hop
  | setTimer n => simp [assignsTimer] at hop
  | adjustTimer d => simp [assignsTimer] at hop

/-- Witness for `timer_monotonic_amended`: a countdown tick on a
concrete running state does not raise the timer. -/
theorem timer_monotonic_amended_witness :
    runningState5.running = true ∧ assignsTimer .tick = false ∧
      (applyOp 180 .tick runningState5).seconds ≤ runningState5.seconds :=
  ⟨rfl, rfl, timer_monotonic_amended 180 .tick runningState5 rfl rfl⟩

/-- The candidate positions of the advance scan: forward from `i + 1`,
wrapping modulo `len`, one full loop. -/
def wrapCandidates (len i : Nat) : List Nat :=
  (List.range len).map fun c => (i + 1 + c) % len

/-- Written from the spec scenario's words: the index of the next item
whose status is pending or skipped in a snapshot, scanning forward from
`i + 1` and wrapping modulo `items.length`; `none` when the snapshot has
no pending or skipped item. -/
def specNextPending (items : List PlayItem) (i : Nat) : Option Nat :=
  (wrapCandidates items.length i).find? fun j => eligible (items.getD j default)

theorem scanFrom_eq_find? (items : List PlayItem) (hlen : 0 < items.length) :
    ∀ (c j : Nat), j < items.length →
      scanFrom items j c
        = (((List.range c).map fun k => (j + k) % items.length).find?
            fun p => eligible (items.getD p default)) := by
  intro c
  induction c with
  | zero => intro j _; simp [scanFrom]
  | succ c ih =>
    intro j hj
    have hj0 : (j + 0) % items.length = j := by
      rw [Nat.add_zero, Nat.mod_eq_of_lt hj]
    rw [List.range_succ_eq_map, List.map_cons, List.map_map]
    simp only [scanFrom]
    split
    · next helig =>
      rw [List.find?_cons_of_pos _ (by simpa [Nat.mod_eq_of_lt hj] using helig)]
      simp [Nat.mod_eq_of_lt hj]
    · next helig =>
      rw [List.find?_cons_of_neg _ (by simpa [Nat.mod_eq_of_lt hj] using helig)]
      have hfun : ((fun k => (j + k) % items.length) ∘ Nat.succ)
          = fun k => ((j + 1) % items.length + k) % items.length := by
        funext k
        simp only [Function.comp]
        rw [Nat.mod_add_mod]
        congr 1
        omega
      rw [ih ((j + 1) % items.length) (Nat.mod_lt _ hlen), hfun]

theorem wrapCandidates_decomp (len i : Nat) (hi : i < len) :
    wrapCandidates len i
      = ((List.range (len - 1)).map fun c => (i + 1 + c) % len) ++ [i] := by
  unfold wrapCandidates
  obtain ⟨m, rfl⟩ : ∃ m, len = m + 1 := ⟨len - 1, by omega⟩
  rw [List.range_succ, List.map_append, List.map_cons, List.map_nil,
      Nat.add_sub_cancel]
  congr 2
  have e : i + 1 + m = i + (m + 1) := by omega
  rw [e, Nat.add_mod_right, Nat.mod_eq_of_lt hi]

theorem wrapFront_ne (len i c : Nat) (hi : i < len) (hc : c < len - 1) :
    (i + 1 + c) % len ≠ i := by
  intro he
  have hmod : (i + (c + 1)) % len = i % len := by
    rw [Nat.mod_eq_of_lt hi]
    calc (i + (c + 1)) % len = (i + 1 + c) % len := by congr 1; omega
      _ = i := he
  have h2 : Nat.ModEq len (i + (c + 1)) (i + 0) := by
    unfold Nat.ModEq
    simpa using hmod
  have hcan : (c + 1) % len = 0 % len := Nat.ModEq.add_left_cancel' i h2
  have hlt : (c + 1) % len = c + 1 := Nat.mod_eq_of_lt (by omega)
  simp only [Nat.zero_mod] at hcan
  omega

theorem find?_changed_last (i : Nat) (p q : Nat → Bool)
    (hpq : ∀ x, x ≠ i → p x = q x) :
    ∀ (front : List Nat) (j : Nat), (∀ x ∈ front, x ≠ i) →
      (front ++ [i]).find? q = some j →
      (match (front ++ [i]).find? p with
       | some r => r
       | none => i) = j := by
  intro front
  induction front with
  | nil =>
    intro j _ h
    simp only [List.nil_append] at h ⊢
    cases hq : q i with
    | false =>
      rw [List.find?_cons_of_neg _ (by simp [hq]), List.find?_nil] at h
      cases h
    | true =>
      rw [List.find?_cons_of_pos _ hq] at h
      have hij : i = j := by injection h
      subst hij
      cases hp : p i with
      | true => rw [List.find?_cons_of_pos _ hp]
      | false => rw [List.find?_cons_of_neg _ (by simp [hp]), List.find?_nil]
  | cons x front ih =>
    intro j hne h
    simp only [List.cons_append] at h ⊢
    have hx : x ≠ i := hne x (by simp)
    cases hqx : q x with
    | true =>
      rw [List.find?_cons_of_pos _ hqx] at h
      have hxj : x = j := by injection h
      rw [List.find?_cons_of_pos _ (by rw [hpq x hx]; exact hqx)]
      exact hxj
    | false =>
      rw [List.find?_cons_of_neg _ (by simp [hqx])] at h
      rw [List.find?_cons_of_neg _ (by simp [hpq x hx, hqx])]
      exact ih j (fun y hy => hne y (by simp [hy])) h

/-- C6: marking the item at the current index on a non-empty, unfinished
board sets exactly that item's status in the published snapshot, and
whenever the snapshot still has a next pending or skipped item (scanning
forward from `currentIndex + 1` and wrapping modulo `items.length`), the
new `currentIndex` is exactly that item's index. -/
theorem mark_and_advance (st : GameState) (s : Status) (j : Nat)
    (hfin : st.finished = false) (hne : st.items ≠ []) (hidx : st.idx < st.items.length)
    (hspec : specNextPending (mark .owner st s).items st.idx = some j) :
    (mark .owner st s).items.getD st.idx default
        = { st.items.getD st.idx default with status := s } ∧
      (mark .owner st s).idx = j := by
  have hlen : 0 < st.items.length := List.length_pos.mpr hne
  have hmark : mark .owner st s
      = { st with
          items := st.items.set st.idx
            { st.items.getD st.idx default with status := s },
          idx := nextIndex st.items st.idx } := by
    unfold mark
    simp [hfin, Nat.pos_iff_ne_zero.mp hlen]
  rw [hmark] at hspec ⊢
  constructor
  · show (st.items.set st.idx _).getD st.idx default = _
    rw [List.getD_eq_getElem?_getD, List.getElem?_set_self',
        List.getElem?_eq_getElem hidx]
    rfl
  · show nextIndex st.items st.idx = j
    have hlenset :
        (st.items.set st.idx
          { st.items.getD st.idx default with status := s }).length
          = st.items.length := by
      simp
    have hspec' :
        (wrapCandidates st.items.length st.idx).find?
          (fun p => eligible ((st.items.set st.idx
            { st.items.getD st.idx default with status := s }).getD p default))
          = some j := by
      have h := hspec
      unfold specNextPending at h
      simp only [hlenset] at h
      exact h
    have hagree : ∀ x, x ≠ st.idx →
        (fun p => eligible (st.items.getD p default)) x
          = (fun p => eligible ((st.items.set st.idx
              { st.items.getD st.idx default with status := s }).getD p default)) x := by
      intro x hx
      have hgd : (st.items.set st.idx
          { st.items.getD st.idx default with status := s }).getD x default
          = st.items.getD x default := by
        rw [List.getD_eq_getElem?_getD, List.getElem?_set_ne (fun h => hx h.symm),
            ← List.getD_eq_getElem?_getD]
      simp only
      rw [hgd]
    have hcand : (List.range st.items.length).map
          (fun k => ((st.idx + 1) % st.items.length + k) % st.items.length)
        = wrapCandidates st.items.length st.idx := by
      unfold wrapCandidates
      have hfun2 : (fun k => ((st.idx + 1) % st.items.length + k) % st.items.length)
          = fun c => (st.idx + 1 + c) % st.items.length := by
        funext k
        rw [Nat.mod_add_mod]
      rw [hfun2]
    have hni : nextIndex st.items st.idx
        = match (wrapCandidates st.items.length st.idx).find?
            (fun p => eligible (st.items.getD p default)) with
          | some r => r
          | none => st.idx := by
      unfold nextIndex
      rw [if_neg (Nat.pos_iff_ne_zero.mp hlen),
          scanFrom_eq_find? st.items hlen st.items.length
            ((st.idx + 1) % st.items.length) (Nat.mod_lt _ hlen),
          hcand]
    have hdecomp := wrapCandidates_decomp st.items.length st.idx hidx
    have hfront : ∀ x ∈ (List.range (st.items.length - 1)).map
        (fun c => (st.idx + 1 + c) % st.items.length), x ≠ st.idx := by
      intro x hx
      simp only [List.mem_map, List.mem_range] at hx
      obtain ⟨c, hc, rfl⟩ := hx
      exact wrapFront_ne st.items.length st.idx c hidx hc
    have hmain := find?_changed_last st.idx
      (fun p => eligible (st.items.getD p default))
      (fun p => eligible ((st.items.set st.idx
        { st.items.getD st.idx default with status := s }).getD p default))
      hagree _ j hfront (by rw [← hdecomp]; exact hspec')
    rw [hni, hdecomp]
    exact hmain

/-- A concrete two-item board with both items pending, index 0, running. -/
def markSt : GameState :=
  ⟨[⟨"A", .empieza, "p1", "a1", .pendiente⟩,
    ⟨"B", .contiene, "p2", "a2", .pendiente⟩], 0, 60, true, false⟩

/-- Witness for `mark_and_advance`: marking index 0 as correct advances
to index 1, the next pending item of the published snapshot. -/
theorem mark_and_advance_witness :
    (mark .owner markSt .bien).items.getD markSt.idx default
        = { markSt.items.getD markSt.idx default with status := .bien } ∧
      (mark .owner markSt .bien).idx = 1 :=
  mark_and_advance markSt .bien 1 rfl (by decide) (by decide) (by decide)

/-- The owner timer-expiry step: the effect body runs
`setRunning(false); setFinished(true); broadcastAll()`, where that
`broadcastAll` closure reads the render's (pre-transition) state
variables, and the owner publish effect then runs `broadcastAll()` once
more for the committed state change — but only when the channel is
joined.  Returns the new state and the list of snapshots handed to
`broadcastAll` during the step. -/
def expiryStep (st : GameState) (joined : Bool) : GameState × List GameState :=
  if st.seconds = 0 && st.running then
    ({ st with running := false, finished := true },
     [st] ++ (if joined then [{ st with running := false, finished := true }] else []))
  else (st, [])

/-- C7 counterexample: on an owner session whose channel join has not
completed, the expiry transition's resulting snapshot is never handed to
`broadcastAll` — the owner publish effect is gated on `joined`, and the
expiry effect's own `broadcastAll()` captures the pre-transition render
state — so the owner does not publish exactly one resulting snapshot. -/
theorem timer_expiry_counterexample :
    (expiryStep ⟨[], 2, 0, true, false⟩ false).2.count
        (expiryStep ⟨[], 2, 0, true, false⟩ false).1 ≠ 1 := by
  decide

/-- C7 amended: when the countdown hits zero while running on an owner
session, the owner transitions to `running = false, finished = true` with
all other fields unchanged; when the channel join has completed, exactly
one of the snapshots published in the step is the resulting snapshot
(the expiry effect's own `broadcastAll` captures the pre-transition
state), and before the join completes the resulting snapshot is not
published at all. -/
theorem timer_expiry (st : GameState) (h0 : st.seconds = 0) (hr : st.running = true) :
    (expiryStep st true).1
        = { st with running := false, finished := true } ∧
      (expiryStep st true).1.items = st.items ∧
      (expiryStep st true).1.idx = st.idx ∧
      (expiryStep st true).1.seconds = st.seconds ∧
      (expiryStep st true).2.count (expiryStep st true).1 = 1 ∧
      (expiryStep st false).1
        = { st with running := false, finished := true } ∧
      (expiryStep st false).2.count (expiryStep st false).1 = 0 := by
  have hne : ¬(st = { st with running := false, finished := true }) := by
    intro he
    have hc := congrArg GameState.running he
    rw [hr] at hc
    simp at hc
  have he : expiryStep st true
      = ({ st with running := false, finished := true },
         [st, { st with running := false, finished := true }]) := by
    simp [expiryStep, h0, hr]
  have he2 : expiryStep st false
      = ({ st with running := false, finished := true }, [st]) := by
    simp [expiryStep, h0, hr]
  rw [he, he2]
  refine ⟨rfl, rfl, rfl, rfl, ?_, rfl, ?_⟩
  · simp [List.count_cons, hne]
  · simp [List.count_cons, hne]

/-- Witness for `timer_expiry` at a concrete expiring state. -/
theorem timer_expiry_witness :
    (expiryStep ⟨[], 2, 0, true, false⟩ true).1
        = { (⟨[], 2, 0, true, false⟩ : GameState) with running := false, finished := true } ∧
      (expiryStep ⟨[], 2, 0, true, false⟩ true).1.items = ([] : List PlayItem) ∧
      (expiryStep ⟨[], 2, 0, true, false⟩ true).1.idx = 2 ∧
      (expiryStep ⟨[], 2, 0, true, false⟩ true).1.seconds = 0 ∧
      (expiryStep ⟨[], 2, 0, true, false⟩ true).2.count
        (expiryStep ⟨[], 2, 0, true, false⟩ true).1 = 1 ∧
      (expiryStep ⟨[], 2, 0, true, false⟩ false).1
        = { (⟨[], 2, 0, true, false⟩ : GameState) with running := false, finished := true } ∧
      (expiryStep ⟨[], 2, 0, true, false⟩ false).2.count
        (expiryStep ⟨[], 2, 0, true, false⟩ false).1 = 0 :=
  timer_expiry ⟨[], 2, 0, true, false⟩ rfl rfl

/-- `broadcastRealtime` from App.tsx as a function of the throttle state:
no send unless the channel ref is set and the join handshake completed;
a send attempted less than 120 ms after the last accepted network send is
dropped, not queued; `lastSentRef` is updated only on accepted sends.
Returns whether a network send happened and the new timestamp. -/
def broadcastRealtimeModel (hasChannel joined : Bool) (now lastSent : Nat) : Bool × Nat :=
  if !hasChannel || !joined then (false, lastSent)
  else if now - lastSent < 120 then (false, lastSent)
  else (true, now)

/-- The owner publish effect over a sequence of state-change times: each
change, when the session is the owner and the channel is joined, runs
`broadcastAll` — one unconditional local-transport send (BroadcastChannel
post plus storage write) and one throttled network attempt.  Returns
(local-send count, network-send count). -/
def publishRun (role : Role) (joined : Bool) : List Nat → Nat → Nat × Nat
  | [], _ => (0, 0)
  | t :: ts, lastSent =>
    if role = .owner && joined then
      let r := broadcastRealtimeModel true joined t lastSent
      let rest := publishRun role joined ts r.2
      (rest.1 + 1, rest.2 + (if r.1 then 1 else 0))
    else publishRun role joined ts lastSent

theorem publishRun_all_close (ts : List Nat) :
    ∀ lastSent, (∀ t ∈ ts, t - lastSent < 120) →
      (publishRun .owner true ts lastSent).2 = 0 := by
  induction ts with
  | nil => intro _ _; simp [publishRun]
  | cons t ts ih =>
    intro lastSent h
    have ht : t - lastSent < 120 := h t (by simp)
    have hrest := ih lastSent (fun x hx => h x (by simp [hx]))
    simp [publishRun, broadcastRealtimeModel, ht, hrest]

theorem publishRun_local_count (ts : List Nat) :
    ∀ lastSent, (publishRun .owner true ts lastSent).1 = ts.length := by
  induction ts with
  | nil => intro _; simp [publishRun]
  | cons t ts ih =>
    intro lastSent
    simp [publishRun, ih]

theorem publishRun_not_joined (ts : List Nat) :
    ∀ lastSent, publishRun .owner false ts lastSent = (0, 0) := by
  induction ts with
  | nil => intro _; simp [publishRun]
  | cons t ts ih =>
    intro lastSent
    simp [publishRun, ih]

theorem publishRun_net_le_one (t0 : Nat) (ts : List Nat) :
    ∀ lastSent, (∀ t ∈ ts, t0 ≤ t ∧ t < t0 + 120) →
      (publishRun .owner true ts lastSent).2 ≤ 1 := by
  induction ts with
  | nil => intro _ _; simp [publishRun]
  | cons t ts ih =>
    intro lastSent hw
    by_cases hthr : t - lastSent < 120
    · have hrest := ih lastSent (fun x hx => hw x (by simp [hx]))
      simpa [publishRun, broadcastRealtimeModel, hthr] using hrest
    · have hz := publishRun_all_close ts t (fun x hx => by
        have h1 := hw x (by simp [hx])
        have h2 := (hw t (by simp)).1
        omega)
      simp [publishRun, broadcastRealtimeModel, hthr, hz]

/-- C3 counterexample: the owner publish effect
(`if (role === "owner" && joined) broadcastAll()`) gates every leg on the
network join, local transports included — on an owner session whose join
has not completed, one state change produces zero local-transport sends,
so local sends do not occur for every change. -/
theorem throttle_local_counterexample :
    (publishRun .owner false [200] 0).1 ≠ [200].length := by
  decide

/-- C3 amended: for any sequence of owner-side state changes whose times
all lie in a window shorter than the 120 ms throttle interval, on a
session whose channel join has completed at most one network send occurs
(the timestamp updates only on accepted sends, drops are discarded) while
the local transports send once per change; before the join completes, the
publish effect performs no sends at all, local or network. -/
theorem throttle_bound (ts : List Nat) (lastSent t0 : Nat)
    (hw : ∀ t ∈ ts, t0 ≤ t ∧ t < t0 + 120) :
    (publishRun .owner true ts lastSent).2 ≤ 1 ∧
      (publishRun .owner true ts lastSent).1 = ts.length ∧
      publishRun .owner false ts lastSent = (0, 0) :=
  ⟨publishRun_net_le_one t0 ts lastSent hw,
   publishRun_local_count ts lastSent,
   publishRun_not_joined ts lastSent⟩

/-- Witness for `throttle_bound`: three rapid changes at 200, 230 and
250 ms yield one network send and three local sends. -/
theorem throttle_bound_witness :
    (publishRun .owner true [200, 230, 250] 0).2 ≤ 1 ∧
      (publishRun .owner true [200, 230, 250] 0).1 = [200, 230, 250].length ∧
      publishRun .owner false [200, 230, 250] 0 = (0, 0) :=
  throttle_bound [200, 230, 250] 0 200 (by decide)

/-- `broadcastLocal`'s posted payload from App.tsx:
`{ type: "state", items, idx, seconds, running, finished, roomId }`. -/
def broadcastLocalEnv (roomId : String) (st : GameState) : Envelope :=
  { type := "state", roomId := some roomId, items := st.items, idx := st.idx,
    seconds := st.seconds, running := st.running, finished := st.finished }

/-- The storage-slot write of `broadcastLocal`:
`JSON.stringify({ ...payload, ts: Date.now() })` — the same envelope plus
a wall-clock timestamp. -/
structure StorageWrite where
  env : Envelope
  ts : Nat
  deriving DecidableEq, Repr

/-- The value written to the `rosco-sync` storage slot. -/
def storageWriteOf (roomId : String) (st : GameState) (ts : Nat) : StorageWrite :=
  ⟨broadcastLocalEnv roomId st, ts⟩

/-- The network message payload of `broadcastRealtime` from App.tsx: the
object literal `{ items, idx, seconds, running, finished }` — exactly
five keys. -/
structure NetPayload where
  items : List PlayItem
  idx : Nat
  seconds : Nat
  running : Bool
  finished : Bool
  deriving DecidableEq, Repr

/-- The payload `broadcastRealtime` sends for a state. -/
def broadcastRealtimePayload (st : GameState) : NetPayload :=
  ⟨st.items, st.idx, st.seconds, st.running, st.finished⟩

/-- Reading the `roomId` property of the network payload object: the
literal has no such key, so the read yields `undefined` (`none`), for
every payload. -/
def NetPayload.readRoomId (_p : NetPayload) : Option String := none

/-- The name of the realtime channel a session subscribes:
`supabase.channel(roomId, ...)` — the room id itself. -/
def channelName (roomId : String) : String := roomId

/-- C9 counterexample: for a session in room `"r1"`, the network-transport
payload does not embed the room tag — reading its `roomId` yields no
value, so not every sent envelope carries the RoomIdentity. -/
theorem room_tag_counterexample :
    (broadcastRealtimePayload ⟨[], 0, 30, true, false⟩).readRoomId ≠ some "r1" := by
  decide

/-- C9 amended: the local transports (BroadcastChannel post and storage
write) embed the session's room id in every envelope; the network
payload carries no room tag — on that path the room scoping comes from
the channel being named by the room id. -/
theorem room_tag_amended (rid : String) (st : GameState) (ts : Nat) :
    (broadcastLocalEnv rid st).roomId = some rid ∧
      (storageWriteOf rid st ts).env.roomId = some rid ∧
      (broadcastRealtimePayload st).readRoomId = none ∧
      channelName rid = rid :=
  ⟨rfl, rfl, rfl, rfl⟩

/-- A prior state holding a non-empty bank, used to exhibit the file
loader's error-path behaviour. -/
def priorBank : GameState := ⟨[⟨"A", .empieza, "p", "a", .bien⟩], 0, 7, false, false⟩

/-- C8 counterexample: feeding the file loader an empty record array from
a state holding a bank surfaces the error notice but leaves the previous
bank in place — it does not install the fallback bank. -/
theorem ingestion_counterexample :
    (loadFromFileModel 180 priorBank (some [])).2 = .errorNotice ∧
      (loadFromFileModel 180 priorBank (some [])).1.items ≠ fallbackItems := by
  decide

/-- Written from the spec's ingestion contract: the per-record mapping —
uppercase the letter, keep the rule when it is one of the three
enumerated values and otherwise normalise to the first, keep prompt and
answer, initialise status to pending. -/
def specMapRecord (d : RawRecord) : PlayItem :=
  { letter := d.letter.toUpper,
    rule := if d.rule = "empieza" then .empieza
            else if d.rule = "contiene" then .contiene
            else if d.rule = "termina" then .termina
            else .empieza,
    prompt := d.prompt,
    answer := d.answer,
    status := .pendiente }

/-- Written from the spec's ingestion contract: keep exactly the records
whose `letter`, `rule`, `prompt` and `answer` are all present and
non-empty, mapped by `specMapRecord`. -/
def specIngest (data : List RawRecord) : List PlayItem :=
  (data.filter fun d => d.letter != "" && d.rule != "" && d.prompt != "" && d.answer != "")
    |>.map specMapRecord

theorem mapRecord_eq_spec (d : RawRecord) : mapRecord d = specMapRecord d := by
  unfold mapRecord specMapRecord ruleOfString
  by_cases h1 : d.rule = "empieza"
  · simp [h1]
  · by_cases h2 : d.rule = "contiene"
    · simp [h2]
    · by_cases h3 : d.rule = "termina"
      · simp [h3]
      · simp [h1, h2, h3]

theorem mapBank_eq_specIngest (data : List RawRecord) : mapBank data = specIngest data := by
  unfold mapBank specIngest validRecord
  exact List.map_congr_left fun d _ => mapRecord_eq_spec d

/-- C8 amended: the loaded bank is exactly the valid records mapped as
the spec's ingestion contract states (invalid records dropped, not
fatal); an empty resulting sequence is an error reported with a
non-fatal notice, never a crash — the URL loader then installs the
(empty) fallback bank while the file loader leaves the previous bank
unchanged; a non-empty result is installed with index, flags and timer
reset on both paths; a failed fetch or parse likewise takes the
respective error path. -/
theorem ingestion_amended (dflt : Nat) (st : GameState) (data : List RawRecord) :
    mapBank data = specIngest data ∧
      loadFromUrlModel dflt st (some data)
        = (if mapBank data = [] then
             ({ st with items := fallbackItems, idx := 0, finished := false,
                        running := false, seconds := dflt }, .errorNotice)
           else
             ({ st with items := mapBank data, idx := 0, finished := false,
                        running := false, seconds := dflt }, .ok)) ∧
      loadFromFileModel dflt st (some data)
        = (if mapBank data = [] then (st, .errorNotice)
           else
             ({ st with items := mapBank data, idx := 0, finished := false,
                        running := false, seconds := dflt }, .ok)) ∧
      loadFromUrlModel dflt st none
        = ({ st with items := fallbackItems, idx := 0, finished := false,
                     running := false, seconds := dflt }, .errorNotice) ∧
      loadFromFileModel dflt st none = (st, .errorNotice) := by
  refine ⟨mapBank_eq_specIngest data, ?_, ?_, rfl, rfl⟩
  · simp only [loadFromUrlModel]
    by_cases h : mapBank data = []
    · simp [h, List.length_eq_zero]
    · rw [if_neg (fun hc => h (List.length_eq_zero.mp hc)), if_neg h]
  · simp only [loadFromFileModel]
    by_cases h : mapBank data = []
    · simp [h, List.length_eq_zero]
    · rw [if_neg (fun hc => h (List.length_eq_zero.mp hc)), if_neg h]

end Rosco
